import Mathlib

/-!
rc_transmitter: pulse encoder and transmission scheduler

A shallow embedding of `send_message` and `device_write` from
`src/rc_transmitter.c`, and theorems about the delay train the encoder
builds, the sequence of operations the scheduler issues, and the guard
in front of both.

Conventions of the embedding.

* `u32`, `u8` and `s32` values are natural numbers resp. integers; the
  conversions the C code performs implicitly are the functions `to_u32`,
  `to_u8` and `to_s32`.
* The buffer `signal_delays` is filled from its end towards its start. The
  filled part `signal_delays[cursor .. count)` is a list, and the store
  `*--signal_delays_cursor = v` puts `v` in front of it.
* `ktime_t` is a count of nanoseconds; the boot clock is the stream of the
  values successive calls of `ktime_get_boottime()` return. Times are
  integers without a bound: the 64-bit range of `ktime_t` (292 years) is not
  modelled.
* `kmalloc` succeeds or fails as the parameter `kmalloc_ok` says.
* The busy-poll loop need not terminate (the clock may stand still), so
  loops that wait for the clock take a bound on the number of passes and
  return `none` when it is used up.
-/

namespace RcTransmitter

/-! ## Constants of protocol 1 (lines 36-42) and error numbers -/

def PULSE_LENGTH_MICROS : Nat := 350
def SYNC_BIT_HIGH_PULSES : Nat := 1
def SYNC_BIT_LOW_PULSES : Nat := 31
def ONE_HIGH_PULSES : Nat := 3
def ONE_LOW_PULSES : Nat := 1
def ZERO_HIGH_PULSES : Nat := 1
def ZERO_LOW_PULSES : Nat := 3

def ENOMEM : Int := 12
def EFAULT : Int := 14
def EINVAL : Int := 22

/-! ## Integer conversions -/

/-- Conversion to `u32`. -/
def to_u32 (n : Nat) : Nat := n % 2 ^ 32

/-- Conversion to `u8`, as in `(u8)bits`. -/
def to_u8 (n : Nat) : Nat := n % 2 ^ 8

/-- Conversion of an unsigned value to `s32` (two's complement). -/
def to_s32 (n : Nat) : Int :=
  if n % 2 ^ 32 < 2 ^ 31 then ((n % 2 ^ 32 : Nat) : Int) else ((n % 2 ^ 32 : Nat) : Int) - 2 ^ 32

/-- Conversion of a `size_t` to `ssize_t` (two's complement, 64 bit). -/
def to_ssize (n : Nat) : Int :=
  if n % 2 ^ 64 < 2 ^ 63 then ((n % 2 ^ 64 : Nat) : Int) else ((n % 2 ^ 64 : Nat) : Int) - 2 ^ 64

/-! ## The encoder: lines 111-134 of `send_message` -/

/-- State of the fill of `signal_delays`. `cursor` is
`signal_delays_cursor - signal_delays`, `filled` holds
`signal_delays[cursor], ..., signal_delays[count - 1]`. The fields `written`
(the indices stored to, the most recent first) and `passes` (completed passes
of the fill loop) observe the run and are read by no step. -/
structure Fill where
  cursor : Int
  message_copy : Nat
  filled : List Nat
  written : List Int
  passes : Nat
  deriving DecidableEq, Repr

/-- The store `*--signal_delays_cursor = v` of a `u32` value. -/
def Fill.store (s : Fill) (v : Nat) : Fill :=
  { s with cursor := s.cursor - 1
           filled := to_u32 v :: s.filled
           written := (s.cursor - 1) :: s.written }

/-- One pass through the body of `while (signal_delays_cursor > signal_delays)`,
lines 125-133. -/
def fill_body (s : Fill) : Fill :=
  let bit := s.message_copy &&& 1
  let s1 :=
    if bit ≠ 0 then
      (s.store (ONE_LOW_PULSES * PULSE_LENGTH_MICROS)).store (ONE_HIGH_PULSES * PULSE_LENGTH_MICROS)
    else
      (s.store (ZERO_LOW_PULSES * PULSE_LENGTH_MICROS)).store (ZERO_HIGH_PULSES * PULSE_LENGTH_MICROS)
  { s1 with message_copy := s1.message_copy >>> 1, passes := s1.passes + 1 }

/-- The loop `while (signal_delays_cursor > signal_delays)`, lines 124-134,
with at most `n` passes. -/
def fill_loop : Nat → Fill → Fill
  | 0, s => s
  | n + 1, s => if 0 < s.cursor then fill_loop n (fill_body s) else s

/-- Lines 111-134 of `send_message`: the check of `bits`, the allocation
(`kmalloc_ok` tells whether `kmalloc` returned a buffer) and the fill. The
result is the error code returned, or the state the fill ends in. The fill
loop is given `signal_delays_count` passes, more than it makes. -/
def fill_signal_delays (kmalloc_ok : Bool) (message bits : Nat) : Except Int Fill :=
  let signal_delays_count := bits * 2 + 1
  if 0 = bits then
    Except.error (-EINVAL)
  else if !kmalloc_ok then
    Except.error (-ENOMEM)
  else
    let s0 : Fill :=
      { cursor := signal_delays_count, message_copy := message, filled := [], written := [], passes := 0 }
    let s1 := s0.store (SYNC_BIT_HIGH_PULSES * PULSE_LENGTH_MICROS)
    Except.ok (fill_loop signal_delays_count s1)

/-- The contents `signal_delays[0], ..., signal_delays[count - 1]` of the
buffer after the fill. -/
def Fill.train (s : Fill) : List Nat := s.filled.drop (-s.cursor).toNat

/-- The delay train `send_message` builds, or the error code it returns
before it has one. -/
def encode (kmalloc_ok : Bool) (message bits : Nat) : Except Int (List Nat) :=
  match fill_signal_delays kmalloc_ok message bits with
  | Except.error e => Except.error e
  | Except.ok s => Except.ok s.train

/-! ## The scheduler: lines 136-158 of `send_message` -/

/-- What `send_message` does to the lock, the output line and the timer, in
the order it does it. `gpio_set_value v` stands for
`gpio_set_value(gpio_pin, v)`; the pin is fixed when the module is loaded. -/
inductive Event where
  | spin_lock_irqsave
  | gpio_set_value (value : Nat)
  | spin_unlock_irqrestore
  | usleep_range (min max : Nat)
  deriving DecidableEq, Repr

/-- The level an event puts on the output line, when it is a level write. -/
def Event.level : Event → Option Nat
  | Event.gpio_set_value v => some v
  | _ => none

/-- `ktime_add_us(kt, usec)`: `kt` moved on by `usec` microseconds. -/
def ktime_add_us (kt : Int) (usec : Nat) : Int := kt + (usec : Int) * 1000

/-- State of the busy-poll loop. `tick` counts the calls of
`ktime_get_boottime()` made so far: the next call returns `clock tick`.
`cursor` is `signal_delays_cursor - signal_delays`. -/
structure Poll where
  tick : Nat
  next_time : Int
  cursor : Nat
  bit : Nat
  out : List Event
  deriving DecidableEq, Repr

/-- One pass through the body of `while (true)`, lines 143-152. The second
component tells whether the pass left the loop through `break`. -/
def poll_body (clock : Nat → Int) (signal_delays : List Nat) (s : Poll) : Poll × Bool :=
  let current_time := clock s.tick
  let s1 : Poll := { s with tick := s.tick + 1 }
  if s1.next_time ≤ current_time then
    if h : s1.cursor < signal_delays.length then
      ({ s1 with out := s1.out ++ [Event.gpio_set_value s1.bit]
                 bit := if s1.bit ≠ 0 then 0 else 1
                 next_time := ktime_add_us s1.next_time signal_delays[s1.cursor]
                 cursor := s1.cursor + 1 }, false)
    else
      (s1, true)
  else
    (s1, false)

/-- The loop `while (true)`, lines 142-153, with at most `fuel` passes:
the state it is left in, or `none` when it is still polling after `fuel`
passes. -/
def poll_loop (clock : Nat → Int) (signal_delays : List Nat) : Nat → Poll → Option Poll
  | 0, _ => none
  | fuel + 1, s =>
    match poll_body clock signal_delays s with
    | (s1, true) => some s1
    | (s1, false) => poll_loop clock signal_delays fuel s1

/-- The state in which pass number `i` (from 0) of `while (true)` starts, or
`none` when the loop was left before that pass. -/
def poll_at (clock : Nat → Int) (signal_delays : List Nat) : Nat → Poll → Option Poll
  | 0, s => some s
  | i + 1, s =>
    match poll_body clock signal_delays s with
    | (_, true) => none
    | (s1, false) => poll_at clock signal_delays i s1

/-- What persists between replays: the position in the clock stream and the
events issued so far. -/
structure Session where
  tick : Nat
  out : List Event
  deriving DecidableEq, Repr

/-- The state in which the busy-poll loop of a replay starts, lines 137-141:
the line is forced low under the lock and the clock is read once, for
`start_time` and `next_time`. -/
def poll_start (clock : Nat → Int) (s : Session) : Poll :=
  { tick := s.tick + 1
    next_time := clock s.tick
    cursor := 0
    bit := 1
    out := s.out ++ [Event.spin_lock_irqsave, Event.gpio_set_value 0] }

/-- One pass through the body of `while (repeat-- > 0)`, lines 137-157: one
replay of the train, then the sleep. `none` when the busy-poll loop is still
polling after `fuel` passes. -/
def replay (clock : Nat → Int) (signal_delays : List Nat) (last_signal_delay : Nat) (fuel : Nat)
    (s : Session) : Option Session :=
  match poll_loop clock signal_delays fuel (poll_start clock s) with
  | none => none
  | some p =>
    some { tick := p.tick + 1
           out := p.out ++ [Event.gpio_set_value 0, Event.spin_unlock_irqrestore,
             Event.usleep_range last_signal_delay (last_signal_delay + PULSE_LENGTH_MICROS)] }

/-- The loop `while (repeat-- > 0)`, lines 136-158, with at most `n` passes,
each with at most `fuel` passes of the busy-poll loop. The decrement of a
`repeat` that fails the test is not modelled: `repeat` is not read again. -/
def repeat_loop (clock : Nat → Int) (signal_delays : List Nat) (last_signal_delay : Nat)
    (fuel : Nat) : Nat → Int → Session → Option Session
  | 0, «repeat», s => if 0 < «repeat» then none else some s
  | n + 1, «repeat», s =>
    if 0 < «repeat» then
      match replay clock signal_delays last_signal_delay fuel s with
      | none => none
      | some s1 => repeat_loop clock signal_delays last_signal_delay fuel n («repeat» - 1) s1
    else
      some s

/-- What a call of `send_message` leaves behind: the value returned and the
events issued. -/
structure Outcome where
  ret : Int
  out : List Event
  deriving DecidableEq, Repr

/-- The function `send_message(message, bits, repeat)`, lines 104-161, for a
`u32` message, a `u8` bit width and an `s32` repeat count. `clock` is the
stream of readings of the boot clock, `kmalloc_ok` tells whether the
allocation succeeds, and `fuel` bounds the passes of each loop that waits for
the clock; the result is `none` when the bound is used up before the call
returns. -/
def send_message (clock : Nat → Int) (kmalloc_ok : Bool) (fuel : Nat)
    (message bits : Nat) («repeat» : Int) : Option Outcome :=
  match fill_signal_delays kmalloc_ok message bits with
  | Except.error e => some { ret := e, out := [] }
  | Except.ok f =>
    let last_signal_delay := to_u32 (SYNC_BIT_LOW_PULSES * PULSE_LENGTH_MICROS)
    match repeat_loop clock f.train last_signal_delay fuel fuel «repeat» { tick := 0, out := [] } with
    | none => none
    | some s => some { ret := 0, out := s.out }

/-! ## The control surface: `device_write`, lines 164-188 -/

/-- Lines 165-186 of `device_write`, up to the call of `send_message`: the
value returned early, or the arguments the call is made with.
`copy_from_user_ret` is what `copy_from_user` returned and `scanned` the
values of `message`, `bits` and `repeat` after `sscanf` (a variable `sscanf`
did not assign is still 0). -/
def device_write_call (copy_from_user_ret : Nat) (scanned : Nat × Nat × Nat) :
    Except Int (Nat × Nat × Int) :=
  let (message, bits, «repeat») := scanned
  if copy_from_user_ret ≠ 0 then
    Except.error (-EFAULT)
  else if message = 0 ∨ bits = 0 ∨ bits > 32 ∨ «repeat» = 0 then
    Except.error (-EINVAL)
  else
    Except.ok (to_u32 message, to_u8 bits, to_s32 «repeat»)

/-- The function `device_write`, lines 164-188. The value `send_message`
returns is dropped. -/
def device_write (clock : Nat → Int) (kmalloc_ok : Bool) (fuel : Nat) (copy_from_user_ret : Nat)
    (scanned : Nat × Nat × Nat) (buffer_length : Nat) : Option Outcome :=
  match device_write_call copy_from_user_ret scanned with
  | Except.error e => some { ret := e, out := [] }
  | Except.ok (message, bits, «repeat») =>
    match send_message clock kmalloc_ok fuel message bits «repeat» with
    | none => none
    | some o => some { ret := to_ssize buffer_length, out := o.out }

/-! ## The trains and traces the theorems compare with -/

/-- The two train entries of one message bit: hold-high, then hold-low. -/
def symbol (bit : Bool) : List Nat := if bit then [1050, 350] else [350, 1050]

/-- The entries of the low `k` bits of `m`, the most significant first. -/
def msb_first : Nat → Nat → List Nat
  | 0, _ => []
  | k + 1, m => msb_first k (m / 2) ++ symbol (m % 2 = 1)

/-- The level writes of `n` passes of the busy-poll loop that start with
level `bit`. -/
def toggles : Nat → Nat → List Event
  | 0, _ => []
  | n + 1, bit => Event.gpio_set_value bit :: toggles n (if bit ≠ 0 then 0 else 1)

/-- The events of one replay of a train of `len` entries. -/
def replay_trace (len : Nat) : List Event :=
  [Event.spin_lock_irqsave, Event.gpio_set_value 0]
    ++ (List.range len).map (fun k => Event.gpio_set_value ((k + 1) % 2))
    ++ [Event.gpio_set_value 0, Event.spin_unlock_irqrestore, Event.usleep_range 10850 11200]

/-- A clock that advances by 100 microseconds from one reading to the next. -/
def clock100 (n : Nat) : Int := (n : Int) * 100000

/-- What holds whenever a pass of the busy-poll loop starts: `cursor` level
writes have been issued, alternating from high, and `next_time` is the start
time plus the entries consumed. -/
def PollInv (d : List Nat) (t0 : Int) (out0 : List Event) (s : Poll) : Prop :=
  s.cursor ≤ d.length ∧
  s.next_time = t0 + 1000 * ((d.take s.cursor).sum : Int) ∧
  s.out = out0 ++ (List.range s.cursor).map (fun k => Event.gpio_set_value ((k + 1) % 2)) ∧
  s.bit = (s.cursor + 1) % 2

/-- A train of three entries, for the examples. -/
def example_train : List Nat := [350, 1050, 350]

/-- The state in which pass 3 of the busy-poll loop starts when `example_train`
is replayed under `clock100` from the first clock reading on: the first level
write is out, and this pass reads the first clock value past its deadline. -/
def example_pass : Poll :=
  { tick := 4
    next_time := 350000
    cursor := 1
    bit := 0
    out := [Event.spin_lock_irqsave, Event.gpio_set_value 0, Event.gpio_set_value 1] }

set_option linter.unusedVariables false

/-! ## The encoder -/

theorem fill_body_eq (s : Fill) :
    fill_body s =
      { cursor := s.cursor - 2
        message_copy := s.message_copy / 2
        filled := symbol (s.message_copy % 2 = 1) ++ s.filled
        written := (s.cursor - 2) :: (s.cursor - 1) :: s.written
        passes := s.passes + 1 } := by
  rcases Nat.mod_two_eq_zero_or_one s.message_copy with h | h
  · simp [fill_body, Fill.store, Nat.and_one_is_mod, Nat.shiftRight_one, h, symbol, to_u32,
      ZERO_LOW_PULSES, ZERO_HIGH_PULSES, PULSE_LENGTH_MICROS]
    omega
  · simp [fill_body, Fill.store, Nat.and_one_is_mod, Nat.shiftRight_one, h, symbol, to_u32,
      ONE_LOW_PULSES, ONE_HIGH_PULSES, PULSE_LENGTH_MICROS]
    omega

theorem fill_loop_eq (k : Nat) : ∀ (n : Nat) (s : Fill), s.cursor = 2 * (k : Int) → k ≤ n →
    fill_loop n s =
      { cursor := 0
        message_copy := s.message_copy / 2 ^ k
        filled := msb_first k s.message_copy ++ s.filled
        written := (List.range (2 * k)).map Int.ofNat ++ s.written
        passes := s.passes + k } := by
  induction k with
  | zero =>
    intro n s hc _
    cases n with
    | zero => cases s; simp_all [fill_loop, msb_first]
    | succ n => cases s; simp_all [fill_loop, msb_first]
  | succ k ih =>
    intro n s hc hn
    obtain ⟨n, rfl⟩ : ∃ n1, n = n1 + 1 := ⟨n - 1, by omega⟩
    have hpos : 0 < s.cursor := by rw [hc]; push_cast; omega
    rw [fill_loop, if_pos hpos, ih n (fill_body s) (by rw [fill_body_eq]; simp [hc]; ring)
      (by omega)]
    rw [fill_body_eq]
    have h2 : 2 * (k + 1) = 2 * k + 1 + 1 := by ring
    simp [msb_first, Nat.div_div_eq_div_mul, pow_succ, Nat.mul_comm, h2, List.range_succ, hc]
    refine ⟨?_, by omega⟩
    constructor <;> ring


theorem msb_first_length (k : Nat) : ∀ m : Nat, (msb_first k m).length = 2 * k := by
  induction k with
  | zero => intro m; simp [msb_first]
  | succ k ih =>
    intro m
    have hs : (symbol (m % 2 = 1)).length = 2 := by unfold symbol; split <;> rfl
    simp [msb_first, ih, hs]
    ring

theorem msb_first_getElem (k : Nat) : ∀ (m i : Nat), i < k →
    (msb_first k m)[2 * i]? = some (if m.testBit (k - 1 - i) then 1050 else 350) ∧
    (msb_first k m)[2 * i + 1]? = some (if m.testBit (k - 1 - i) then 350 else 1050) := by
  induction k with
  | zero => intro m i hi; omega
  | succ k ih =>
    intro m i hi
    rcases Nat.lt_or_ge i k with h | h
    · have e : k + 1 - 1 - i = (k - 1 - i) + 1 := by omega
      have l1 : 2 * i < (msb_first k (m / 2)).length := by rw [msb_first_length]; omega
      have l2 : 2 * i + 1 < (msb_first k (m / 2)).length := by rw [msb_first_length]; omega
      rw [msb_first, List.getElem?_append_left l1, List.getElem?_append_left l2, e,
        Nat.testBit_add_one]
      exact ih (m / 2) i h
    · have hik : i = k := by omega
      subst hik
      have l1 : (msb_first i (m / 2)).length ≤ 2 * i := by rw [msb_first_length]
      have l2 : (msb_first i (m / 2)).length ≤ 2 * i + 1 := by rw [msb_first_length]; omega
      rw [msb_first, List.getElem?_append_right l1, List.getElem?_append_right l2,
        msb_first_length]
      have e : i + 1 - 1 - i = 0 := by omega
      rw [e, Nat.testBit_zero]
      rcases Nat.mod_two_eq_zero_or_one m with h0 | h0 <;> simp [symbol, h0]

theorem msb_first_congr (k : Nat) : ∀ (m1 m2 : Nat), m1 % 2 ^ k = m2 % 2 ^ k →
    msb_first k m1 = msb_first k m2 := by
  induction k with
  | zero => intro m1 m2 _; rfl
  | succ k ih =>
    intro m1 m2 h
    have hp : 2 ^ (k + 1) = 2 * 2 ^ k := by ring
    rw [hp] at h
    have hlow : m1 % 2 = m2 % 2 := by
      have := congrArg (fun x => x % 2) h
      simpa [Nat.mul_mod_right, Nat.mod_mul_right_mod] using this
    have hhigh : m1 / 2 % 2 ^ k = m2 / 2 % 2 ^ k := by
      have := congrArg (fun x => x / 2) h
      simpa [Nat.mod_mul_right_div_self] using this
    rw [msb_first, msb_first, ih _ _ hhigh, hlow]

theorem fill_signal_delays_eq (m b : Nat) (hb : 1 ≤ b) :
    fill_signal_delays true m b = Except.ok
      { cursor := 0
        message_copy := m / 2 ^ b
        filled := msb_first b m ++ [350]
        written := (List.range (2 * b + 1)).map Int.ofNat
        passes := b } := by
  have hb0 : ¬ (0 = b) := by omega
  unfold fill_signal_delays
  simp only [hb0, if_false, Bool.not_true, Bool.false_eq_true]
  rw [fill_loop_eq b (b * 2 + 1) _ (by simp [Fill.store]; ring) (by omega)]
  simp [Fill.store, List.range_succ, to_u32, SYNC_BIT_HIGH_PULSES, PULSE_LENGTH_MICROS]
  ring

theorem encode_eq (m b : Nat) (hb : 1 ≤ b) :
    encode true m b = Except.ok (msb_first b m ++ [350]) := by
  simp [encode, fill_signal_delays_eq m b hb, Fill.train]


/-! ## The busy-poll loop -/

theorem poll_body_wait (clock : Nat → Int) (d : List Nat) (s : Poll)
    (h : clock s.tick < s.next_time) :
    poll_body clock d s = ({ s with tick := s.tick + 1 }, false) := by
  simp [poll_body, not_le.mpr h]

theorem poll_body_fire (clock : Nat → Int) (d : List Nat) (s : Poll)
    (h : s.next_time ≤ clock s.tick) (hc : s.cursor < d.length) :
    poll_body clock d s =
      ({ tick := s.tick + 1
         next_time := ktime_add_us s.next_time d[s.cursor]
         cursor := s.cursor + 1
         bit := if s.bit ≠ 0 then 0 else 1
         out := s.out ++ [Event.gpio_set_value s.bit] }, false) := by
  simp [poll_body, h, hc]

theorem poll_body_exit (clock : Nat → Int) (d : List Nat) (s : Poll)
    (h : s.next_time ≤ clock s.tick) (hc : d.length ≤ s.cursor) :
    poll_body clock d s = ({ s with tick := s.tick + 1 }, true) := by
  simp [poll_body, h, not_lt.mpr hc]

/-- A loop that will read a clock value at or after its deadline polls until
it reads the first such value. -/
theorem poll_loop_wait (clock : Nat → Int) (d : List Nat) (n : Nat) : ∀ s : Poll,
    s.next_time ≤ clock (s.tick + n) →
    ∃ j, s.next_time ≤ clock (s.tick + j) ∧
      ∀ f, poll_loop clock d (f + j) s = poll_loop clock d f { s with tick := s.tick + j } := by
  induction n with
  | zero => intro s h; exact ⟨0, h, fun f => rfl⟩
  | succ n ih =>
    intro s h
    by_cases h0 : s.next_time ≤ clock s.tick
    · exact ⟨0, h0, fun f => rfl⟩
    · obtain ⟨j, hj, hrun⟩ := ih { s with tick := s.tick + 1 }
        (by simpa [Nat.add_assoc, Nat.add_comm 1 n] using h)
      refine ⟨j + 1, by simpa [Nat.add_assoc, Nat.add_comm 1 j] using hj, fun f => ?_⟩
      have e : f + (j + 1) = (f + j) + 1 := by omega
      rw [e, poll_loop, poll_body_wait clock d s (not_le.mp h0)]
      simp only [hrun f]
      simp [Nat.add_assoc, Nat.add_comm 1 j]

/-- From a state with `r` entries left, under a clock that passes every
deadline, the loop is left after the `r` level writes that remain. -/
theorem poll_loop_rest (clock : Nat → Int) (d : List Nat)
    (hev : ∀ (i : Nat) (t : Int), ∃ j, t ≤ clock (i + j)) (r : Nat) : ∀ s : Poll,
    s.cursor + r = d.length →
    ∃ g p, (∀ f, poll_loop clock d (f + g) s = some p) ∧
      p.out = s.out ++ toggles r s.bit ∧ p.cursor = d.length := by
  induction r with
  | zero =>
    intro s hc
    obtain ⟨n, hn⟩ := hev s.tick s.next_time
    obtain ⟨j, hj, hrun⟩ := poll_loop_wait clock d n s hn
    refine ⟨j + 1, { s with tick := s.tick + j + 1 }, fun f => ?_, by simp [toggles], by simpa using hc⟩
    have e : f + (j + 1) = (f + 1) + j := by omega
    rw [e, hrun (f + 1), poll_loop,
      poll_body_exit clock d { s with tick := s.tick + j } hj (by simp; omega)]
  | succ r ih =>
    intro s hc
    obtain ⟨n, hn⟩ := hev s.tick s.next_time
    obtain ⟨j, hj, hrun⟩ := poll_loop_wait clock d n s hn
    have hlt : s.cursor < d.length := by omega
    obtain ⟨g, p, hp, hout, hcur⟩ := ih
      { tick := s.tick + j + 1
        next_time := ktime_add_us s.next_time d[s.cursor]
        cursor := s.cursor + 1
        bit := if s.bit ≠ 0 then 0 else 1
        out := s.out ++ [Event.gpio_set_value s.bit] } (by simp; omega)
    refine ⟨g + 1 + j, p, fun f => ?_, by simpa [toggles] using hout, hcur⟩
    have e : f + (g + 1 + j) = ((f + g) + 1) + j := by omega
    rw [e, hrun (f + g + 1), poll_loop,
      poll_body_fire clock d { s with tick := s.tick + j } hj hlt]
    exact hp f

theorem toggles_eq (n : Nat) : ∀ b : Nat, b ≤ 1 →
    toggles n b = (List.range n).map (fun k => Event.gpio_set_value ((k + b) % 2)) := by
  induction n with
  | zero => intro b _; rfl
  | succ n ih =>
    intro b hb
    rw [toggles, List.range_succ_eq_map, List.map_cons, List.map_map]
    have e0 : (if (0 : Nat) ≠ 0 then (0 : Nat) else 1) = 1 := by decide
    have e1 : (if (1 : Nat) ≠ 0 then (0 : Nat) else 1) = 0 := by decide
    rcases (by omega : b = 0 ∨ b = 1) with h | h
    · subst h
      rw [e0, ih 1 (by omega)]
      simp
    · subst h
      rw [e1, ih 0 (by omega)]
      simp
      intro a _
      omega


/-! ## Replays -/

/-- The events one replay of the train `d` adds. -/
theorem replay_spec (clock : Nat → Int) (d : List Nat) (last : Nat)
    (hev : ∀ (i : Nat) (t : Int), ∃ j, t ≤ clock (i + j)) (s : Session) :
    ∃ g s1, (∀ f, replay clock d last (f + g) s = some s1) ∧
      s1.out = s.out ++ ([Event.spin_lock_irqsave, Event.gpio_set_value 0] ++ toggles d.length 1
        ++ [Event.gpio_set_value 0, Event.spin_unlock_irqrestore,
            Event.usleep_range last (last + PULSE_LENGTH_MICROS)]) := by
  obtain ⟨g, p, hp, hout, _⟩ := poll_loop_rest clock d hev d.length (poll_start clock s)
    (by simp [poll_start])
  refine ⟨g, { tick := p.tick + 1
               out := p.out ++ [Event.gpio_set_value 0, Event.spin_unlock_irqrestore,
                 Event.usleep_range last (last + PULSE_LENGTH_MICROS)] }, fun f => ?_, ?_⟩
  · rw [replay, hp f]
  · simp [hout, poll_start]

/-- The events `n` replays of the train `d` add. -/
theorem repeat_loop_spec (clock : Nat → Int) (d : List Nat) (last : Nat)
    (hev : ∀ (i : Nat) (t : Int), ∃ j, t ≤ clock (i + j)) (n : Nat) : ∀ s : Session,
    ∃ g s1, (∀ f k, repeat_loop clock d last (f + g) (k + n) (n : Int) s = some s1) ∧
      s1.out = s.out ++ (List.replicate n
        ([Event.spin_lock_irqsave, Event.gpio_set_value 0] ++ toggles d.length 1
          ++ [Event.gpio_set_value 0, Event.spin_unlock_irqrestore,
              Event.usleep_range last (last + PULSE_LENGTH_MICROS)])).flatten := by
  induction n with
  | zero =>
    intro s
    refine ⟨0, s, fun f k => ?_, by simp⟩
    cases k <;> simp [repeat_loop]
  | succ n ih =>
    intro s
    obtain ⟨g1, s1, h1, hout1⟩ := replay_spec clock d last hev s
    obtain ⟨g2, s2, h2, hout2⟩ := ih s1
    refine ⟨g1 + g2, s2, fun f k => ?_, ?_⟩
    · have e1 : k + (n + 1) = (k + n) + 1 := by omega
      have e2 : f + (g1 + g2) = (f + g2) + g1 := by omega
      have e3 : f + g2 + g1 = (f + g1) + g2 := by omega
      have hpos : (0 : Int) < ((n + 1 : Nat) : Int) := by exact_mod_cast Nat.succ_pos n
      have hdec : ((n + 1 : Nat) : Int) - 1 = (n : Int) := by push_cast; ring
      rw [e1, e2, repeat_loop, if_pos hpos, h1 (f + g2), hdec]
      simp only
      rw [e3]
      exact h2 (f + g1) k
    · rw [hout2, hout1, List.replicate_succ, List.flatten_cons, List.append_assoc]

theorem replay_trace_eq (b : Nat) :
    [Event.spin_lock_irqsave, Event.gpio_set_value 0] ++ toggles (2 * b + 1) 1
      ++ [Event.gpio_set_value 0, Event.spin_unlock_irqrestore,
          Event.usleep_range (to_u32 (SYNC_BIT_LOW_PULSES * PULSE_LENGTH_MICROS))
            (to_u32 (SYNC_BIT_LOW_PULSES * PULSE_LENGTH_MICROS) + PULSE_LENGTH_MICROS)]
      = replay_trace (2 * b + 1) := by
  rw [toggles_eq _ 1 le_rfl]
  simp [replay_trace, to_u32, SYNC_BIT_LOW_PULSES, PULSE_LENGTH_MICROS]

theorem replay_trace_levels (len : Nat) :
    (replay_trace len).filterMap Event.level
      = 0 :: (List.range len).map (fun k => (k + 1) % 2) ++ [0] := by
  simp [replay_trace, List.filterMap_append, List.filterMap_map, Event.level]
  induction (List.range len) with
  | nil => rfl
  | cons a l ih => simp [List.filterMap_cons, Event.level, ih]

theorem clock_passes_later (clock : Nat → Int) (hmono : Monotone clock)
    (hpass : ∀ t : Int, ∃ n, t ≤ clock n) (i : Nat) (t : Int) : ∃ j, t ≤ clock (i + j) := by
  obtain ⟨n, hn⟩ := hpass t
  exact ⟨n, le_trans hn (hmono (Nat.le_add_left n i))⟩

/-- Under a clock that passes every deadline, a call with a valid bit width
and a repeat count `n ≥ 0` returns 0 after `n` replays of the whole train. -/
theorem send_message_spec (clock : Nat → Int) (hmono : Monotone clock)
    (hpass : ∀ t : Int, ∃ n, t ≤ clock n) (m b n : Nat) (hb : 1 ≤ b) :
    ∃ fuel0, ∀ extra, send_message clock true (fuel0 + extra) m b (n : Int)
      = some { ret := 0, out := (List.replicate n (replay_trace (2 * b + 1))).flatten } := by
  have hev := clock_passes_later clock hmono hpass
  obtain ⟨g, s1, hrun, hout⟩ := repeat_loop_spec clock (msb_first b m ++ [350])
    (to_u32 (SYNC_BIT_LOW_PULSES * PULSE_LENGTH_MICROS)) hev n { tick := 0, out := [] }
  refine ⟨g + n, fun extra => ?_⟩
  have hlen : (msb_first b m ++ [350]).length = 2 * b + 1 := by simp [msb_first_length]
  rw [hlen, replay_trace_eq] at hout
  have e : g + n + extra = (n + extra) + g := by omega
  have e2 : n + extra + g = (g + extra) + n := by omega
  have h := hrun (n + extra) (g + extra)
  rw [← e2] at h
  simp only [send_message, fill_signal_delays_eq m b hb, Fill.train]
  simp only [neg_zero, Int.toNat_zero, List.drop_zero]
  rw [e]
  rw [h]
  simp [hout]


/-! ## Deadlines of the busy-poll loop -/

theorem poll_at_succ (clock : Nat → Int) (d : List Nat) (i : Nat) : ∀ s0 : Poll,
    poll_at clock d (i + 1) s0 =
      (poll_at clock d i s0).bind
        (fun s => if (poll_body clock d s).2 then none else some (poll_body clock d s).1) := by
  induction i with
  | zero =>
    intro s0
    simp only [poll_at, Option.some_bind]
    rcases h : poll_body clock d s0 with ⟨s1, b⟩
    cases b <;> simp [poll_at]
  | succ i ih =>
    intro s0
    rw [poll_at]
    rcases h : poll_body clock d s0 with ⟨s1, b⟩
    cases b
    · simp only [ih s1]
      conv_rhs => rw [poll_at, h]
    · simp only
      conv_rhs => rw [poll_at, h]
      rfl

theorem pollInv_step (clock : Nat → Int) (d : List Nat) (t0 : Int) (out0 : List Event) (s : Poll)
    (hinv : PollInv d t0 out0 s) (hcont : (poll_body clock d s).2 = false) :
    PollInv d t0 out0 (poll_body clock d s).1 := by
  obtain ⟨hc, hn, ho, hb⟩ := hinv
  by_cases h : s.next_time ≤ clock s.tick
  · by_cases hlt : s.cursor < d.length
    · rw [poll_body_fire clock d s h hlt]
      refine ⟨hlt, ?_, ?_, ?_⟩
      · simp only [ktime_add_us, hn, List.sum_take_succ d s.cursor hlt]
        push_cast
        ring
      · simp only [ho, hb, List.range_succ, List.map_append, List.map_cons, List.map_nil,
          List.append_assoc]
      · simp only [hb]
        rcases Nat.mod_two_eq_zero_or_one (s.cursor + 1) with h2 | h2
        · rw [h2]; simp; omega
        · rw [h2]; simp; omega
    · rw [poll_body_exit clock d s h (not_lt.mp hlt)] at hcont
      simp at hcont
  · rw [poll_body_wait clock d s (not_le.mp h)]
    exact ⟨hc, hn, ho, hb⟩

theorem pollInv_at (clock : Nat → Int) (d : List Nat) (st : Session) (i : Nat) : ∀ s : Poll,
    poll_at clock d i (poll_start clock st) = some s →
    PollInv d (clock st.tick) (poll_start clock st).out s := by
  induction i with
  | zero =>
    intro s h
    simp only [poll_at, Option.some.injEq] at h
    subst h
    simp [PollInv, poll_start]
  | succ i ih =>
    intro s h
    rw [poll_at_succ] at h
    rcases hi : poll_at clock d i (poll_start clock st) with _ | s1
    · simp [hi] at h
    · rw [hi, Option.some_bind] at h
      by_cases hx : (poll_body clock d s1).2 = true
      · simp [hx] at h
      · simp only [hx, Bool.false_eq_true, if_false, Option.some.injEq] at h
        subst h
        exact pollInv_step clock d _ _ s1 (ih s1 hi) (by simpa using hx)

/-- The loop is left from a state in which a pass starts. -/
theorem poll_loop_at (clock : Nat → Int) (d : List Nat) (fuel : Nat) : ∀ (s0 p : Poll),
    poll_loop clock d fuel s0 = some p →
    ∃ i s, i < fuel ∧ poll_at clock d i s0 = some s ∧ poll_body clock d s = (p, true) := by
  induction fuel with
  | zero => intro s0 p h; simp [poll_loop] at h
  | succ fuel ih =>
    intro s0 p h
    rw [poll_loop] at h
    rcases hb : poll_body clock d s0 with ⟨s1, b⟩
    rw [hb] at h
    cases b
    · obtain ⟨i, s, hi, hat, hx⟩ := ih s1 p h
      exact ⟨i + 1, s, by omega, by rw [poll_at, hb]; exact hat, hx⟩
    · simp only [Option.some.injEq] at h
      subst h
      exact ⟨0, s0, by omega, rfl, hb⟩


/-- A pass that leaves the loop is reached by `poll_loop` when it has the
passes for it. -/
theorem poll_loop_of_at (clock : Nat → Int) (d : List Nat) (i : Nat) : ∀ (s0 s p : Poll),
    poll_at clock d i s0 = some s → poll_body clock d s = (p, true) →
    ∀ extra, poll_loop clock d (i + 1 + extra) s0 = some p := by
  induction i with
  | zero =>
    intro s0 s p h hb extra
    simp only [poll_at, Option.some.injEq] at h
    subst h
    have e : 0 + 1 + extra = extra + 1 := by omega
    rw [e, poll_loop, hb]
  | succ i ih =>
    intro s0 s p h hb extra
    rw [poll_at] at h
    have e : i + 1 + 1 + extra = (i + 1 + extra) + 1 := by omega
    rw [e, poll_loop]
    rcases hb0 : poll_body clock d s0 with ⟨s1, b⟩
    rw [hb0] at h
    cases b
    · exact ih s1 s p h hb extra
    · simp at h

theorem clock100_mono : Monotone clock100 := by
  intro a b hab
  unfold clock100
  have : (a : Int) ≤ (b : Int) := by exact_mod_cast hab
  omega

theorem clock100_passes : ∀ t : Int, ∃ n, t ≤ clock100 n := by
  intro t
  refine ⟨t.toNat, ?_⟩
  unfold clock100
  have := Int.self_le_toNat t
  omega

/-! ## The claims -/

/-- C1: for a 32-bit message `m` and a bit width `b` in 1..32 the train is
MSB-first: for `i < b`, entries `2i` and `2i+1` are (1050, 350) when bit
`b-1-i` of `m` is 1 and (350, 1050) when it is 0, and entry `2b` is the sync
high duration 350; `m = 0b1010`, `b = 4` gives the train of the example. -/
theorem train_is_msb_first (m b i : Nat) (hm : m < 2 ^ 32) (hb1 : 1 ≤ b) (hb32 : b ≤ 32)
    (hi : i < b) :
    ∃ d, encode true m b = Except.ok d ∧
      d[2 * i]? = some (if m.testBit (b - 1 - i) then 1050 else 350) ∧
      d[2 * i + 1]? = some (if m.testBit (b - 1 - i) then 350 else 1050) ∧
      d[2 * b]? = some 350 ∧
      encode true 0b1010 4 = Except.ok [1050, 350, 350, 1050, 1050, 350, 350, 1050, 350] := by
  refine ⟨_, encode_eq m b hb1, ?_, ?_, ?_, rfl⟩
  · rw [List.getElem?_append_left (by rw [msb_first_length]; omega)]
    exact (msb_first_getElem b m i hi).1
  · rw [List.getElem?_append_left (by rw [msb_first_length]; omega)]
    exact (msb_first_getElem b m i hi).2
  · rw [List.getElem?_append_right (by rw [msb_first_length]), msb_first_length]
    simp

theorem train_is_msb_first_witness :
    ∃ d, encode true 5 3 = Except.ok d ∧
      d[2 * 1]? = some (if (5 : Nat).testBit (3 - 1 - 1) then 1050 else 350) ∧
      d[2 * 1 + 1]? = some (if (5 : Nat).testBit (3 - 1 - 1) then 350 else 1050) ∧
      d[2 * 3]? = some 350 ∧
      encode true 0b1010 4 = Except.ok [1050, 350, 350, 1050, 1050, 350, 350, 1050, 350] :=
  train_is_msb_first 5 3 1 (by decide) (by decide) (by decide) (by decide)

/-- C2: for a 32-bit message and a bit width `b` in 1..32 the train has
`2b+1` entries; the fill loop makes exactly `b` passes and ends with the
cursor at index 0, and the stores go to the indices `2b, ..., 1, 0`, each
once and none below 0 (`written` lists them from the most recent). -/
theorem fill_covers_buffer (m b : Nat) (hm : m < 2 ^ 32) (hb1 : 1 ≤ b) (hb32 : b ≤ 32) :
    ∃ s, fill_signal_delays true m b = Except.ok s ∧
      encode true m b = Except.ok s.train ∧
      s.train.length = 2 * b + 1 ∧
      s.passes = b ∧
      s.cursor = 0 ∧
      s.written = (List.range (2 * b + 1)).map Int.ofNat := by
  refine ⟨_, fill_signal_delays_eq m b hb1, ?_, ?_, rfl, rfl, rfl⟩
  · rw [encode_eq m b hb1]; simp [Fill.train]
  · simp [Fill.train, msb_first_length]

theorem fill_covers_buffer_witness :
    ∃ s, fill_signal_delays true 5 3 = Except.ok s ∧
      encode true 5 3 = Except.ok s.train ∧
      s.train.length = 2 * 3 + 1 ∧
      s.passes = 3 ∧
      s.cursor = 0 ∧
      s.written = (List.range (2 * 3 + 1)).map Int.ofNat :=
  fill_covers_buffer 5 3 (by decide) (by decide) (by decide)

/-- C3, as the code has it: `send_message` rejects bit width 0 with
`-EINVAL` before it touches the line, and with bit width 32 builds a train of
65 entries; bit width 33 is rejected with `-EINVAL` by `device_write`, which
does not call `send_message` then. -/
theorem bits_boundaries (x : Nat) (hx : x < 2 ^ 32) :
    (∀ kmalloc_ok, encode kmalloc_ok x 0 = Except.error (-EINVAL)) ∧
    (∀ clock kmalloc_ok fuel r,
      send_message clock kmalloc_ok fuel x 0 r = some { ret := -EINVAL, out := [] }) ∧
    (∃ d, encode true x 32 = Except.ok d ∧ d.length = 65) ∧
    (∀ r, device_write_call 0 (x, 33, r) = Except.error (-EINVAL)) ∧
    (∀ clock kmalloc_ok fuel r len,
      device_write clock kmalloc_ok fuel 0 (x, 33, r) len = some { ret := -EINVAL, out := [] }) := by
  refine ⟨fun _ => rfl, fun _ _ _ _ => rfl, ⟨_, encode_eq x 32 (by decide), ?_⟩, ?_, ?_⟩
  · simp [msb_first_length]
  · intro r
    simp [device_write_call]
  · intro clock ok fuel r len
    simp [device_write, device_write_call]

theorem bits_boundaries_witness :
    (∀ kmalloc_ok, encode kmalloc_ok 7 0 = Except.error (-EINVAL)) ∧
    (∀ clock kmalloc_ok fuel r,
      send_message clock kmalloc_ok fuel 7 0 r = some { ret := -EINVAL, out := [] }) ∧
    (∃ d, encode true 7 32 = Except.ok d ∧ d.length = 65) ∧
    (∀ r, device_write_call 0 (7, 33, r) = Except.error (-EINVAL)) ∧
    (∀ clock kmalloc_ok fuel r len,
      device_write clock kmalloc_ok fuel 0 (7, 33, r) len = some { ret := -EINVAL, out := [] }) :=
  bits_boundaries 7 (by decide)

set_option maxRecDepth 100000 in
/-- C3 as stated fails: with bit width 33 `send_message` does not return
`-EINVAL`; it builds a train of 67 entries, replays it and returns 0. -/
theorem bits_33_not_rejected :
    encode true 0 33 ≠ Except.error (-EINVAL) ∧
    (∃ d, encode true 0 33 = Except.ok d ∧ d.length = 67) ∧
    send_message clock100 true 600 0 33 1 = some { ret := 0, out := replay_trace 67 } := by
  refine ⟨?_, ⟨_, rfl, rfl⟩, ?_⟩
  · rw [encode_eq 0 33 (by decide)]
    simp
  · decide


/-- C4: bits of the message above the bit width are ignored: for a bit width
`b` in 1..32 and 32-bit messages that agree modulo `2^b`, `send_message`
builds the same train. -/
theorem high_bits_ignored (m1 m2 b : Nat) (h1 : m1 < 2 ^ 32) (h2 : m2 < 2 ^ 32) (hb1 : 1 ≤ b)
    (hb32 : b ≤ 32) (h : m1 % 2 ^ b = m2 % 2 ^ b) :
    ∃ d, encode true m1 b = Except.ok d ∧ encode true m2 b = Except.ok d := by
  refine ⟨_, encode_eq m1 b hb1, ?_⟩
  rw [encode_eq m2 b hb1, msb_first_congr b m1 m2 h]

theorem high_bits_ignored_witness :
    ∃ d, encode true 0xF5 4 = Except.ok d ∧ encode true 0x25 4 = Except.ok d :=
  high_bits_ignored 0xF5 0x25 4 (by decide) (by decide) (by decide) (by decide) (by decide)

/-- C5: for a valid message and bit width and `repeat = 1`, under a monotonic
clock that passes every deadline, `send_message` returns (with 0) and the
level writes it issued are one LOW, then `2*bits+1` writes, as many as the
train has entries, that alternate from HIGH, then one LOW; the last write
before the return is LOW. -/
theorem single_replay_writes (clock : Nat → Int) (m b : Nat) (hmono : Monotone clock)
    (hpass : ∀ t : Int, ∃ n, t ≤ clock n) (hm : m < 2 ^ 32) (hb1 : 1 ≤ b) (hb32 : b ≤ 32) :
    ∃ fuel0 out d,
      (∀ extra, send_message clock true (fuel0 + extra) m b 1 = some { ret := 0, out := out }) ∧
      encode true m b = Except.ok d ∧
      out.filterMap Event.level
        = 0 :: (List.range d.length).map (fun k => (k + 1) % 2) ++ [0] ∧
      d.length = 2 * b + 1 ∧
      (out.filterMap Event.level).getLast? = some 0 ∧
      out = replay_trace (2 * b + 1) := by
  obtain ⟨fuel0, hrun⟩ := send_message_spec clock hmono hpass m b 1 hb1
  have hlen : (msb_first b m ++ [350]).length = 2 * b + 1 := by simp [msb_first_length]
  refine ⟨fuel0, replay_trace (2 * b + 1), _, fun extra => ?_, encode_eq m b hb1, ?_, hlen, ?_, rfl⟩
  · simpa using hrun extra
  · rw [replay_trace_levels, hlen]
  · rw [replay_trace_levels, List.getLast?_append]
    rfl

theorem single_replay_writes_witness :
    ∃ fuel0 out d,
      (∀ extra, send_message clock100 true (fuel0 + extra) 0b1010 4 1
        = some { ret := 0, out := out }) ∧
      encode true 0b1010 4 = Except.ok d ∧
      out.filterMap Event.level
        = 0 :: (List.range d.length).map (fun k => (k + 1) % 2) ++ [0] ∧
      d.length = 2 * 4 + 1 ∧
      (out.filterMap Event.level).getLast? = some 0 ∧
      out = replay_trace (2 * 4 + 1) :=
  single_replay_writes clock100 0b1010 4 clock100_mono clock100_passes (by decide) (by decide)
    (by decide)

/-- C7: for a scanned triple of unsigned 32-bit values, `device_write` returns
`-EINVAL` without calling `send_message` exactly when `message == 0`,
`bits == 0`, `bits > 32` or `repeat == 0`; otherwise it calls `send_message`
with the scanned message, the repeat count converted to `s32`, and a bit
width that after the cast to `u8` is the scanned one and lies in 1..32, and
what `device_write` does is what that call does, with `buffer_length`
returned. -/
theorem device_write_guard (message bits rep : Nat) (hm : message < 2 ^ 32)
    (hb : bits < 2 ^ 32) (hr : rep < 2 ^ 32) :
    (device_write_call 0 (message, bits, rep) = Except.error (-EINVAL)
      ↔ (message = 0 ∨ bits = 0 ∨ bits > 32 ∨ rep = 0)) ∧
    ((device_write_call 0 (message, bits, rep) = Except.error (-EINVAL) ∧
        ∀ clock kmalloc_ok fuel len,
          device_write clock kmalloc_ok fuel 0 (message, bits, rep) len
            = some { ret := -EINVAL, out := [] })
      ∨ (∃ bits8, device_write_call 0 (message, bits, rep)
            = Except.ok (message, bits8, to_s32 rep) ∧
          bits8 = to_u8 bits ∧ bits8 = bits ∧ 1 ≤ bits8 ∧ bits8 ≤ 32 ∧
          ∀ clock kmalloc_ok fuel len,
            device_write clock kmalloc_ok fuel 0 (message, bits, rep) len
              = (send_message clock kmalloc_ok fuel message bits8 (to_s32 rep)).map
                  (fun o => { ret := to_ssize len, out := o.out }))) := by
  by_cases hbad : message = 0 ∨ bits = 0 ∨ bits > 32 ∨ rep = 0
  · have hcall : device_write_call 0 (message, bits, rep) = Except.error (-EINVAL) := by
      simp [device_write_call, hbad]
    refine ⟨⟨fun _ => hbad, fun _ => hcall⟩, Or.inl ⟨hcall, fun clock ok fuel len => ?_⟩⟩
    simp [device_write, hcall]
  · have hcall : device_write_call 0 (message, bits, rep)
        = Except.ok (to_u32 message, to_u8 bits, to_s32 rep) := by
      simp [device_write_call, hbad]
    have h8 : to_u8 bits = bits := by
      unfold to_u8
      omega
    have h32 : to_u32 message = message := by
      unfold to_u32
      omega
    refine ⟨⟨fun h => ?_, fun h => absurd h hbad⟩,
      Or.inr ⟨to_u8 bits, ?_, rfl, h8, ?_, ?_, fun clock ok fuel len => ?_⟩⟩
    · rw [hcall] at h
      cases h
    · rw [hcall, h32]
    · rw [h8]; omega
    · rw [h8]; omega
    · simp only [device_write, hcall, h32]
      cases send_message clock ok fuel message (to_u8 bits) (to_s32 rep) <;> rfl

theorem device_write_guard_witness :
    (device_write_call 0 (0xA, 4, 3) = Except.error (-EINVAL)
      ↔ ((0xA : Nat) = 0 ∨ (4 : Nat) = 0 ∨ (4 : Nat) > 32 ∨ (3 : Nat) = 0)) ∧
    ((device_write_call 0 (0xA, 4, 3) = Except.error (-EINVAL) ∧
        ∀ clock kmalloc_ok fuel len,
          device_write clock kmalloc_ok fuel 0 (0xA, 4, 3) len
            = some { ret := -EINVAL, out := [] })
      ∨ (∃ bits8, device_write_call 0 (0xA, 4, 3)
            = Except.ok (0xA, bits8, to_s32 3) ∧
          bits8 = to_u8 4 ∧ bits8 = 4 ∧ 1 ≤ bits8 ∧ bits8 ≤ 32 ∧
          ∀ clock kmalloc_ok fuel len,
            device_write clock kmalloc_ok fuel 0 (0xA, 4, 3) len
              = (send_message clock kmalloc_ok fuel 0xA bits8 (to_s32 3)).map
                  (fun o => { ret := to_ssize len, out := o.out }))) :=
  device_write_guard 0xA 4 3 (by decide) (by decide) (by decide)

/-- C8, at the failing input: the command `1 1 80000000` passes the guard
of `device_write`, the `s32` parameter `repeat` receives `-2^31`, and
`send_message` returns without a single replay; `device_write` reports the
write as done. -/
theorem repeat_sign_lost (clock : Nat → Int) (kmalloc_ok : Bool) (fuel len : Nat) :
    device_write_call 0 (1, 1, 2 ^ 31) = Except.ok (1, 1, -2 ^ 31) ∧
    send_message clock true fuel 1 1 (-2 ^ 31) = some { ret := 0, out := [] } ∧
    device_write clock kmalloc_ok fuel 0 (1, 1, 2 ^ 31) len
      = some { ret := to_ssize len, out := [] } := by
  have hcall : device_write_call 0 (1, 1, 2 ^ 31) = Except.ok (1, 1, -2 ^ 31) := by rfl
  have hsend : ∀ ok, ∃ r, send_message clock ok fuel 1 1 (-2 ^ 31) = some { ret := r, out := [] } := by
    intro ok
    cases ok
    · exact ⟨-ENOMEM, rfl⟩
    · refine ⟨0, ?_⟩
      simp only [send_message, fill_signal_delays_eq 1 1 le_rfl]
      cases fuel <;> simp [repeat_loop]
  refine ⟨hcall, ?_, ?_⟩
  · simp only [send_message, fill_signal_delays_eq 1 1 le_rfl]
    cases fuel <;> simp [repeat_loop]
  · obtain ⟨r, hr⟩ := hsend kmalloc_ok
    simp only [device_write, hcall, hr]

/-- C10: deadlines within one replay are absolute. Let `t0` be the time read
at the start of the replay and `s` the state in which a pass of the busy-poll
loop starts, with `k = s.cursor` entries consumed. Then `k` level writes have
been issued and `next_time` is `t0` plus the first `k` entries (the clock
counts nanoseconds, the train microseconds). The pass either only polls, or
issues level write number `k`, and does so at a clock reading of at least
`t0` plus the first `k` entries and leaves `next_time` at `t0` plus the first
`k+1` entries, or leaves the loop, and does so with all entries consumed at a
clock reading of at least `t0` plus all entries; the replay then goes on with
the final LOW. No earlier clock reading enters any of these bounds. -/
theorem poll_deadlines (clock : Nat → Int) (d : List Nat) (st : Session) (i : Nat) (s : Poll)
    (h : poll_at clock d i (poll_start clock st) = some s) :
    s.cursor ≤ d.length ∧
    s.next_time = clock st.tick + 1000 * ((d.take s.cursor).sum : Int) ∧
    s.out = st.out ++ [Event.spin_lock_irqsave, Event.gpio_set_value 0]
      ++ (List.range s.cursor).map (fun k => Event.gpio_set_value ((k + 1) % 2)) ∧
    ((clock s.tick < s.next_time ∧
        poll_body clock d s = ({ s with tick := s.tick + 1 }, false))
      ∨ (s.cursor < d.length ∧
        clock st.tick + 1000 * ((d.take s.cursor).sum : Int) ≤ clock s.tick ∧
        (poll_body clock d s).2 = false ∧
        (poll_body clock d s).1.out = s.out ++ [Event.gpio_set_value ((s.cursor + 1) % 2)] ∧
        (poll_body clock d s).1.cursor = s.cursor + 1 ∧
        (poll_body clock d s).1.next_time
          = clock st.tick + 1000 * ((d.take (s.cursor + 1)).sum : Int))
      ∨ (s.cursor = d.length ∧
        clock st.tick + 1000 * (d.sum : Int) ≤ clock s.tick ∧
        poll_body clock d s = ({ s with tick := s.tick + 1 }, true) ∧
        ∀ last extra, replay clock d last (i + 1 + extra) st
          = some { tick := s.tick + 2
                   out := s.out ++ [Event.gpio_set_value 0, Event.spin_unlock_irqrestore,
                     Event.usleep_range last (last + PULSE_LENGTH_MICROS)] })) := by
  have hinv := pollInv_at clock d st i s h
  obtain ⟨hc, hn, ho, hb⟩ := hinv
  refine ⟨hc, hn, by simpa [poll_start] using ho, ?_⟩
  by_cases hd : s.next_time ≤ clock s.tick
  · by_cases hlt : s.cursor < d.length
    · refine Or.inr (Or.inl ⟨hlt, by rw [← hn]; exact hd, ?_⟩)
      have hstep := pollInv_step clock d _ _ s ⟨hc, hn, ho, hb⟩
        (by rw [poll_body_fire clock d s hd hlt])
      rw [poll_body_fire clock d s hd hlt] at hstep ⊢
      exact ⟨rfl, by simp [hb], rfl, hstep.2.1⟩
    · have hcur : s.cursor = d.length := by omega
      have hexit := poll_body_exit clock d s hd (not_lt.mp hlt)
      refine Or.inr (Or.inr ⟨hcur, ?_, hexit, fun last extra => ?_⟩)
      · rw [hcur, List.take_length] at hn
        rw [← hn]
        exact hd
      · rw [replay, poll_loop_of_at clock d i _ s _ h hexit extra]
  · exact Or.inl ⟨not_le.mp hd, poll_body_wait clock d s (not_le.mp hd)⟩


theorem poll_deadlines_witness :
    example_pass.cursor ≤ example_train.length ∧
    example_pass.next_time
      = clock100 0 + 1000 * ((example_train.take example_pass.cursor).sum : Int) ∧
    example_pass.out = [] ++ [Event.spin_lock_irqsave, Event.gpio_set_value 0]
      ++ (List.range example_pass.cursor).map (fun k => Event.gpio_set_value ((k + 1) % 2)) ∧
    ((clock100 example_pass.tick < example_pass.next_time ∧
        poll_body clock100 example_train example_pass
          = ({ example_pass with tick := example_pass.tick + 1 }, false))
      ∨ (example_pass.cursor < example_train.length ∧
        clock100 0 + 1000 * ((example_train.take example_pass.cursor).sum : Int)
          ≤ clock100 example_pass.tick ∧
        (poll_body clock100 example_train example_pass).2 = false ∧
        (poll_body clock100 example_train example_pass).1.out
          = example_pass.out ++ [Event.gpio_set_value ((example_pass.cursor + 1) % 2)] ∧
        (poll_body clock100 example_train example_pass).1.cursor = example_pass.cursor + 1 ∧
        (poll_body clock100 example_train example_pass).1.next_time
          = clock100 0 + 1000 * ((example_train.take (example_pass.cursor + 1)).sum : Int))
      ∨ (example_pass.cursor = example_train.length ∧
        clock100 0 + 1000 * (example_train.sum : Int) ≤ clock100 example_pass.tick ∧
        poll_body clock100 example_train example_pass
          = ({ example_pass with tick := example_pass.tick + 1 }, true) ∧
        ∀ last extra, replay clock100 example_train last (3 + 1 + extra) { tick := 0, out := [] }
          = some { tick := example_pass.tick + 2
                   out := example_pass.out ++ [Event.gpio_set_value 0,
                     Event.spin_unlock_irqrestore,
                     Event.usleep_range last (last + PULSE_LENGTH_MICROS)] })) :=
  poll_deadlines clock100 example_train { tick := 0, out := [] } 3 example_pass (by decide)

end RcTransmitter
